import Mathlib

/-!
Shallow embedding of the Cloud Cost Optimizer pipeline
(`profile_generator.py`, `llm_utils.py`, `billing_engine.py`, `analyzer.py`).

Modelling conventions:
* Text is modelled as `List ℕ` of Unicode code points where the code
  performs case/substring/regex operations; plain identifiers that are only
  compared for equality (billing months, billing service names) are `String`.
* Python `float` arithmetic is idealised as exact rational arithmetic (`ℚ`);
  Python `int(x)` on a number is truncation toward zero (`truncQ`).
* The LLM completion endpoint is an explicit oracle parameter; `Option`
  models "no usable response".
* Python's `list(set(xs))` (iteration order of a hash set, deterministic
  within one process and a function of the element set) is modelled as
  first-occurrence deduplication `List.dedup`.
-/

set_option autoImplicit false

/-- Code points of a string literal, the `List ℕ` text representation. -/
def str (s : String) : List ℕ := s.toList.map Char.toNat

/-- ASCII uppercase letter test (Python `str.lower`/`str.upper` restricted to
ASCII, which is all the pipeline's vocabulary uses). -/
def chIsUpper (c : ℕ) : Prop := 65 ≤ c ∧ c ≤ 90

def chIsLower (c : ℕ) : Prop := 97 ≤ c ∧ c ≤ 122

instance (c : ℕ) : Decidable (chIsUpper c) := by unfold chIsUpper; infer_instance
instance (c : ℕ) : Decidable (chIsLower c) := by unfold chIsLower; infer_instance

/-- Python `ch.lower()` for a single code point. -/
def chLower (c : ℕ) : ℕ := if chIsUpper c then c + 32 else c

/-- Python `ch.upper()` for a single code point. -/
def chUpper (c : ℕ) : ℕ := if chIsLower c then c - 32 else c

/-- Cased (alphabetic) character, the word-boundary notion of `str.title`. -/
def chIsAlpha (c : ℕ) : Bool := decide (chIsUpper c ∨ chIsLower c)

/-- Python `\s` / `str.strip` whitespace. -/
def wsC (c : ℕ) : Bool := decide (c = 32 ∨ c = 9 ∨ c = 10 ∨ c = 13 ∨ c = 11 ∨ c = 12)

/-- ASCII digit. -/
def digitC (c : ℕ) : Bool := decide (48 ≤ c ∧ c ≤ 57)

/-- Digit or comma, the `[\d,]` character class of the budget regexes. -/
def digitCommaC (c : ℕ) : Bool := digitC c || decide (c = 44)

/-- Python `s.lower()`. -/
def lowerL (l : List ℕ) : List ℕ := l.map chLower

/-- Python `s.strip()`. -/
def stripL (l : List ℕ) : List ℕ := ((l.dropWhile wsC).reverse.dropWhile wsC).reverse

/-- Python `needle in hay` substring test. -/
def isSub (n : List ℕ) : List ℕ → Bool
  | [] => n.isEmpty
  | c :: t => n.isPrefixOf (c :: t) || isSub n t

/-- Auxiliary scanner for `re.findall(r'\d+', s)`: `acc` is the current
digit run, reversed. -/
def digitRunsAux : List ℕ → List ℕ → List (List ℕ)
  | acc, [] => if acc.isEmpty then [] else [acc.reverse]
  | acc, c :: cs =>
    if digitC c then digitRunsAux (c :: acc) cs
    else if acc.isEmpty then digitRunsAux [] cs
    else acc.reverse :: digitRunsAux [] cs

/-- `re.findall(r'\d+', s)`: the maximal digit runs of `s`. -/
def digitRuns (l : List ℕ) : List (List ℕ) := digitRunsAux [] l

/-- Decimal value of a digit string (Python `int` on a digit literal). -/
def digitsVal (l : List ℕ) : ℕ := l.foldl (fun acc c => acc * 10 + (c - 48)) 0

/-- Python `str.title()`, tracking whether the previous character was cased. -/
def pyTitleAux : Bool → List ℕ → List ℕ
  | _, [] => []
  | prev, c :: cs =>
    if chIsAlpha c then
      (if prev then chLower c else chUpper c) :: pyTitleAux true cs
    else
      c :: pyTitleAux false cs

/-- Python `s.title()`. -/
def pyTitle (l : List ℕ) : List ℕ := pyTitleAux false l

/-- Python `int(q)`: truncation toward zero. -/
def truncQ (q : ℚ) : ℤ := if 0 ≤ q then ⌊q⌋ else ⌈q⌉

/-! ## Stage 1: `profile_generator._sanitize_profile` -/

/-- The structured project profile of Stage 1 (`description` here is the
profile's description field, distinct from the raw source text). -/
structure Profile where
  name : List ℕ
  budget_inr_per_month : ℤ
  description : List ℕ
  tech_stack : List (List ℕ × List ℕ)
  non_functional_requirements : List (List ℕ)
  deriving DecidableEq, Repr

/-- One match attempt of `(?:rs\.?|inr|₹)\s*([\d,]+)` at the head of `l`:
consume the currency token (an optional dot after `rs`; if the dot path has
no digits the dotless path is stuck on the dot, so consuming the dot when
present is exact), skip whitespace, and capture a nonempty `[\d,]+` run. -/
def budgetMatch1At (l : List ℕ) : Option (List ℕ) :=
  let afterTok : Option (List ℕ) :=
    if (str "rs").isPrefixOf l then
      let rest := l.drop 2
      some (if rest.head? = some 46 then rest.drop 1 else rest)
    else if (str "inr").isPrefixOf l then some (l.drop 3)
    else if (str "₹").isPrefixOf l then some (l.drop 1)
    else none
  match afterTok with
  | none => none
  | some rest =>
    let grp := (rest.dropWhile wsC).takeWhile digitCommaC
    if grp.isEmpty then none else some grp

/-- Leftmost match of the first budget regex (`re.search` scan). -/
def budgetScan1 : List ℕ → Option (List ℕ)
  | [] => none
  | c :: cs =>
    match budgetMatch1At (c :: cs) with
    | some g => some g
    | none => budgetScan1 cs

/-- One match attempt of `([\d,]+)\s*(?:rupees|rs)` at the head of `l`.
Shrinking the greedy `[\d,]+` or `\s*` leaves the cursor on a digit, comma
or space, none of which can start `rupees`/`rs`, so maximal munch is exact. -/
def budgetMatch2At (l : List ℕ) : Option (List ℕ) :=
  let grp := l.takeWhile digitCommaC
  if grp.isEmpty then none
  else
    let rest := (l.drop grp.length).dropWhile wsC
    if (str "rupees").isPrefixOf rest || (str "rs").isPrefixOf rest then some grp else none

/-- Leftmost match of the second budget regex. -/
def budgetScan2 : List ℕ → Option (List ℕ)
  | [] => none
  | c :: cs =>
    match budgetMatch2At (c :: cs) with
    | some g => some g
    | none => budgetScan2 cs

/-- Budget extraction from the lowered source text: first regex preferred;
the second regex is tried only when the first finds no match; the captured
group has its commas stripped and is parsed, a group with no digits raising
`ValueError` (modelled as `none`, keeping the LLM estimate). -/
def budgetFromText (tl : List ℕ) : Option ℕ :=
  let m := match budgetScan1 tl with
    | some g => some g
    | none => budgetScan2 tl
  match m with
  | none => none
  | some g =>
    let ds := g.filter (fun c => !decide (c = 44))
    if ds.isEmpty then none else some (digitsVal ds)

/-- The concept → keyword-synonym table of `_sanitize_profile`, in source
order. -/
def conceptTable : List (List ℕ × List (List ℕ)) :=
  [ (str "scalability", [str "scalab", str "scale", str "scalable", str "scalability"]),
    (str "cost efficiency", [str "cost", str "cost efficiency", str "cost-effective", str "cost efficient"]),
    (str "high availability", [str "availability", str "high availability", str "high-availability"]),
    (str "security", [str "security", str "secure", str "authentication", str "authorization"]),
    (str "disaster recovery", [str "disaster", str "recovery", str "backup", str "failover"]),
    (str "monitoring", [str "monitor", str "monitoring", str "uptime", str "observability"]) ]

/-- One concept-loop iteration test: the concept (or a synonym) occurs in the
cleaned requirement AND some synonym (or the concept itself) occurs in the
source text.  Iterations failing either test fall through to the next row. -/
def conceptHit (ck : List ℕ × List (List ℕ)) (clean tl : List ℕ) : Bool :=
  (isSub ck.1 clean || ck.2.any (fun k => isSub k clean)) &&
    ((ck.2 ++ [ck.1]).any (fun k => isSub k tl))

/-- Validation of a single candidate non-functional requirement against the
lowered source text; returns the zero-or-one values appended to
`valid_nfrs`. -/
def processNfr (nfr tl : List ℕ) : List (List ℕ) :=
  let clean := stripL (lowerL nfr)
  let nums := digitRuns clean
  if !nums.isEmpty && nums.all (fun n => isSub n tl) then [nfr]
  else if (conceptTable.find? (fun ck => conceptHit ck clean tl)).isSome then [pyTitle nfr]
  else if isSub clean tl then [nfr]
  else []

/-- Tech-stack entry check: keep the tool only if it is truthy and appears
(case-insensitively) in the source text, else the sentinel. -/
def cleanTool (tool tl : List ℕ) : List ℕ :=
  if !tool.isEmpty && isSub (lowerL tool) tl then tool else str "Not Specified"

/-- First segment of `re.split(r'[\.\n]', raw_text)`. -/
def firstSentence (t : List ℕ) : List ℕ :=
  t.takeWhile (fun c => !(decide (c = 46) || decide (c = 10)))

/-- `profile_generator._sanitize_profile`: budget regex override, requirement
validation, tech-stack verbatim check, first-sentence description. -/
def _sanitize_profile (p : Profile) (rawText : List ℕ) : Profile :=
  let tl := lowerL rawText
  { name := p.name
    budget_inr_per_month :=
      match budgetFromText tl with
      | some n => (n : ℤ)
      | none => p.budget_inr_per_month
    description := stripL (firstSentence rawText)
    tech_stack := p.tech_stack.map (fun lt => (lt.1, cleanTool lt.2 tl))
    non_functional_requirements :=
      (p.non_functional_requirements.flatMap (fun n => processNfr n tl)).dedup }

/-! ## `llm_utils.query_llama_with_validation`

The completion call plus JSON extraction (`query_llama_json`) is one oracle
`String → Option D`: `none` is a transport failure or unextractable JSON.
Python tests the extracted value with `if data:`, so a *falsy* JSON value
(`[]`, `{}`, `0`, `""`, `null`, `false`) is handled like an extraction
failure; truthiness is the parameter `truthy`.  The validator returns
`(is_valid, error_message)`.  The returned `ℕ` counts oracle queries
(completion-and-extraction attempts); it is observational instrumentation
only and does not influence the result. -/

/-- The corrective prompt after a validator rejection. -/
def retryPrompt (base msg : String) : String :=
  base ++ "\n\n PREVIOUS OUTPUT INVALID: " ++ msg ++ "\nEnsure strict JSON compliance."

/-- The corrective prompt after a non-JSON (or falsy) response. -/
def notJsonPrompt (base : String) : String :=
  base ++ "\n\n PREVIOUS OUTPUT WAS NOT JSON.\nReturn ONLY valid JSON."

/-- The retry loop body: `fuel` iterations remain, `cur` is the prompt for
the next attempt. -/
def queryLoopAux {D : Type} (oracle : String → Option D) (truthy : D → Bool)
    (validator : D → Bool × String) (base : String) : ℕ → String → Option D × ℕ
  | 0, _ => (none, 0)
  | fuel + 1, cur =>
    match oracle cur with
    | some d =>
      if truthy d then
        if (validator d).1 then (some d, 1)
        else
          let r := queryLoopAux oracle truthy validator base fuel (retryPrompt base (validator d).2)
          (r.1, r.2 + 1)
      else
        let r := queryLoopAux oracle truthy validator base fuel (notJsonPrompt base)
        (r.1, r.2 + 1)
    | none =>
      let r := queryLoopAux oracle truthy validator base fuel (notJsonPrompt base)
      (r.1, r.2 + 1)

/-- `llm_utils.query_llama_with_validation`: `max_retries + 1` sequential
attempts starting from `prompt` (the source default for `max_retries` is 3). -/
def query_llama_with_validation {D : Type} (oracle : String → Option D) (truthy : D → Bool)
    (validator : D → Bool × String) (prompt : String) (max_retries : ℕ) : Option D × ℕ :=
  queryLoopAux oracle truthy validator prompt (max_retries + 1) prompt

/-- The prompt used by attempt `i+1` given the prompt of attempt `i`
(unchanged on acceptance, where the loop has already returned). -/
def stepPrompt {D : Type} (oracle : String → Option D) (truthy : D → Bool)
    (validator : D → Bool × String) (base cur : String) : String :=
  match oracle cur with
  | some d =>
    if truthy d then
      if (validator d).1 then cur else retryPrompt base (validator d).2
    else notJsonPrompt base
  | none => notJsonPrompt base

/-- Whether the attempt issued with prompt `s` yields a truthy,
validator-accepted payload. -/
def attemptOk {D : Type} (oracle : String → Option D) (truthy : D → Bool)
    (validator : D → Bool × String) (s : String) : Bool :=
  match oracle s with
  | some d => truthy d && (validator d).1
  | none => false

/-! ## Stage 2: `billing_engine.generate_mock_billing`

`get_recent_months` reads the wall clock, so the expected month window is a
parameter `months`.  The per-month `random.uniform(0.97, 1.03)` draw is the
parameter `factor`.  Raw LLM billing records carry the three required keys
as options (`none` = key absent); `cost_inr = some none` is a present value
on which `float(...)` raises.  Backfilled descriptive metadata
(`region`, `usage_type`, `desc`, …) is never read downstream and is omitted. -/

structure RawBill where
  month : Option String
  service : Option String
  cost_inr : Option (Option ℚ)
  deriving DecidableEq, Repr

/-- A repaired billing record. -/
structure Bill where
  month : String
  service : String
  cost_inr : ℤ
  deriving DecidableEq, Repr

/-- The repair/drop pass: drop records missing a required key, coerce
`cost_inr` by `int(float(_))`, dropping records where coercion raises. -/
def repairRecs (raw : List RawBill) : List Bill :=
  raw.filterMap (fun r =>
    match r.month, r.service, r.cost_inr with
    | some m, some s, some (some q) => some ⟨m, s, truncQ q⟩
    | _, _, _ => none)

/-- Total `cost_inr` of a record list. -/
def sumBill (l : List Bill) : ℤ := (l.map Bill.cost_inr).sum

/-- Budget normalization: group the valid records by expected month
(dict keys in first-occurrence order), rescale each nonempty month group to
`budget * factor month` with a floor of 10 per record, concatenate, and keep
at most 20 records. -/
def normalizeBilling (budget : ℤ) (months : List String) (factor : String → ℚ)
    (valid : List Bill) : List Bill :=
  ((months.dedup).flatMap (fun m =>
    let recs := valid.filter (fun r => decide (r.month = m))
    if recs.isEmpty then []
    else
      let currentTotal := sumBill recs
      let totalOr1 : ℤ := if currentTotal = 0 then 1 else currentTotal
      let target : ℚ := (budget : ℚ) * factor m
      let scale : ℚ := target / (totalOr1 : ℚ)
      recs.map (fun r => { r with cost_inr := max 10 (truncQ ((r.cost_inr : ℚ) * scale)) }))).take 20

/-- The five fixed records the deterministic fallback emits for one month
(Compute 40%, Database 30%, Storage 15%, Networking 10%, Monitoring 5%). -/
def fallbackMonth (budget : ℤ) (m : String) : List Bill :=
  [ ⟨m, "Compute", truncQ ((budget : ℚ) * (4 / 10))⟩,
    ⟨m, "Database", truncQ ((budget : ℚ) * (3 / 10))⟩,
    ⟨m, "Storage", truncQ ((budget : ℚ) * (15 / 100))⟩,
    ⟨m, "Networking", truncQ ((budget : ℚ) * (1 / 10))⟩,
    ⟨m, "Monitoring", truncQ ((budget : ℚ) * (5 / 100))⟩ ]

/-- `billing_engine._generate_fallback`: deterministic synthetic data, capped
at 20 records. -/
def _generate_fallback (budget : ℤ) (months : List String) : List Bill :=
  (months.flatMap (fallbackMonth budget)).take 20

/-- Lookup of the profile's database entry, lowered
(`str(tech_stack.get("database", "")).lower()`). -/
def dbNameOf (p : Profile) : List ℕ :=
  lowerL ((p.tech_stack.lookup (str "database")).getD [])

/-- `"sqlite" in db_name`. -/
def isSqliteProfile (p : Profile) : Bool := isSub (str "sqlite") (dbNameOf p)

/-- `billing_engine.generate_mock_billing`: `llmOut` is the parsed response
of `query_llama_json` (`none` = no usable response or a non-list value; a
falsy `[]` response reaches the same fallback through the empty-valid-set
check, preserving the observable behaviour).  `is_sqlite` only shapes the
prompt text, which is not modelled. -/
def generate_mock_billing (p : Profile) (months : List String) (factor : String → ℚ)
    (llmOut : Option (List RawBill)) : List Bill :=
  match llmOut with
  | none => _generate_fallback p.budget_inr_per_month months
  | some raw =>
    let valid := repairRecs raw
    if valid.isEmpty then _generate_fallback p.budget_inr_per_month months
    else normalizeBilling p.budget_inr_per_month months factor valid

/-! ## Stage 3: `analyzer.analyze_costs_and_generate_recommendations`

Billing records entering the analyzer carry `ℚ` costs because the SQLite
redistribution adds `db_cost / len(compute_recs)` (Python float division,
idealised as exact `ℚ`).  Recommendation text fields that undergo
case/substring work are `List ℕ`. -/

/-- A billing record as read by the analyzer. -/
structure ARec where
  month : String
  service : String
  cost_inr : ℚ
  deriving DecidableEq, Repr

/-- Total `cost_inr` over analyzer billing records. -/
def sumCost (l : List ARec) : ℚ := (l.map ARec.cost_inr).sum

/-- Summed cost of the `Database` records. -/
def dbCost (billing : List ARec) : ℚ :=
  sumCost (billing.filter (fun r => decide (r.service = "Database")))

/-- The SQLite redistribution body: remove `Database` records and, when
Compute records remain and the removed cost is positive, add
`db_cost / len(compute_recs)` to every Compute record. -/
def redistributeDb (billing : List ARec) : List ARec :=
  let db := dbCost billing
  let rest := billing.filter (fun r => !decide (r.service = "Database"))
  let nCompute := (rest.filter (fun r => decide (r.service = "Compute"))).length
  if nCompute ≠ 0 ∧ 0 < db then
    rest.map (fun r =>
      if r.service = "Compute" then { r with cost_inr := r.cost_inr + db / (nCompute : ℚ) }
      else r)
  else rest

/-- Step 1 of the analyzer: redistribution runs only for SQLite profiles. -/
def sqliteStep (p : Profile) (billing : List ARec) : List ARec :=
  if isSqliteProfile p then redistributeDb billing else billing

/-- `avg_monthly`: total cost over the number of distinct months
(`len({r["month"]}) or 1`). -/
def avgMonthlyOf (billing : List ARec) : ℚ :=
  let nMonths := ((billing.map ARec.month).dedup).length
  sumCost billing / ((if nMonths = 0 then 1 else nMonths : ℕ) : ℚ)

/-- The average monthly cost the analyzer computes (after the SQLite step). -/
def analysisAvg (p : Profile) (billing : List ARec) : ℚ :=
  avgMonthlyOf (sqliteStep p billing)

/-- A raw LLM recommendation item; `none` marks an absent key. -/
structure RawRec where
  title : Option (List ℕ)
  service : Option (List ℕ)
  current_cost : Option ℚ
  potential_savings : Option ℚ
  recommendation_type : Option (List ℕ)
  description : Option (List ℕ)
  deriving DecidableEq, Repr

/-- The validator the analyzer hands to the retry loop (its boolean half):
a list of at least 5 items, all required keys present, and no `Database`
recommendation for SQLite projects. -/
def validateRecs (issqlite : Bool) (recs : List RawRec) : Bool :=
  decide (5 ≤ recs.length) &&
    recs.all (fun r =>
      r.title.isSome && r.service.isSome && r.current_cost.isSome && r.potential_savings.isSome &&
        !(issqlite && decide (r.service = some (str "Database"))))

/-- A post-processed recommendation item.  The inert descriptive metadata of
the synthetic defaults (`steps`, `risk_level`, `implementation_effort`,
`cloud_providers`) is never read by the pipeline and is omitted. -/
structure RecItem where
  title : List ℕ
  service : List ℕ
  current_cost : ℤ
  potential_savings : ℤ
  recommendation_type : List ℕ
  description : List ℕ
  deriving DecidableEq, Repr

/-- Basic cleanup of one raw item: integer coercions and the default
description (`f"Optimization for {r.get('service')}."`, where an absent
service prints as `None`). -/
def mkItem (r : RawRec) : RecItem :=
  { title := r.title.getD []
    service := r.service.getD []
    current_cost := truncQ (r.current_cost.getD 0)
    potential_savings := truncQ (r.potential_savings.getD 0)
    recommendation_type := r.recommendation_type.getD []
    description := r.description.getD
      (str "Optimization for " ++ (match r.service with | some s => s | none => str "None") ++ str ".") }

/-- The dedup key: 15-character prefix of the stripped title, lowercased. -/
def recKey (it : RecItem) : List ℕ := lowerL ((stripL it.title).take 15)

/-- One iteration of the cleanup/filter loop, threading `(cleaned, seen)`. -/
def cleanStep (issqlite : Bool) (st : List RecItem × List (List ℕ)) (r : RawRec) :
    List RecItem × List (List ℕ) :=
  let item := mkItem r
  let title := stripL item.title
  if title.isEmpty then st
  else
    let key := lowerL (title.take 15)
    if key ∈ st.2 then st
    else if isSub (str "transfer acceleration") (lowerL title) then st
    else if issqlite && decide (item.service = str "Database") then st
    else if 0 < item.potential_savings ∨ isSub (str "governance") (lowerL item.recommendation_type) then
      (st.1 ++ [item], st.2 ++ [key])
    else st

/-- Stable-descending insertion by `potential_savings` (ties keep the earlier
element first, matching `sorted(..., reverse=True)`). -/
def insertDescPS (x : RecItem) : List RecItem → List RecItem
  | [] => [x]
  | y :: ys =>
    if y.potential_savings < x.potential_savings then x :: y :: ys else y :: insertDescPS x ys

/-- `sorted(cleaned, key=potential_savings, reverse=True)`. -/
def sortDescPS (l : List RecItem) : List RecItem :=
  l.foldl (fun acc x => insertDescPS x acc) []

/-- The 7 built-in default recommendations, in source order. -/
def defaultRecs : List RecItem :=
  [ ⟨str "Configure Cloud Budget Alerts", str "Governance", 0, 0, str "Governance", str "Set strict budget thresholds."⟩,
    ⟨str "Enable Resource Tagging", str "Governance", 0, 0, str "Governance", str "Tag resources by project."⟩,
    ⟨str "Enable MFA", str "Security", 0, 0, str "Security", str "Secure root account."⟩,
    ⟨str "Release Unused IPs", str "Networking", 0, 200, str "Cleanup", str "Release unattached Elastic IPs."⟩,
    ⟨str "Delete Unattached EBS", str "Storage", 0, 500, str "Cleanup", str "Delete orphaned volumes."⟩,
    ⟨str "Lease Privilege IAM", str "Security", 0, 0, str "Security", str "Audit permissions."⟩,
    ⟨str "Data Retention Policy", str "Governance", 0, 0, str "Governance", str "Auto-delete old logs."⟩ ]

/-- The key the default-fill loop computes (`d["title"][:15].lower()`,
without the strip applied to LLM titles). -/
def defaultKey (it : RecItem) : List ℕ := lowerL (it.title.take 15)

/-- The gap-fill loop: append defaults with unseen keys until 6 items. -/
def fillDefaults (recs : List RecItem) (seen : List (List ℕ)) : List RecItem → List RecItem
  | [] => recs
  | d :: ds =>
    if 6 ≤ recs.length then recs
    else if defaultKey d ∈ seen then fillDefaults recs seen ds
    else fillDefaults (recs ++ [d]) (seen ++ [defaultKey d]) ds

/-- `analyzer._process_recs`: cleanup/filter/dedup, sort by savings
descending, fill with defaults up to 6, cap at 10. -/
def _process_recs (raw : List RawRec) (issqlite : Bool) : List RecItem :=
  let st := raw.foldl (cleanStep issqlite) ([], [])
  let recs := sortDescPS st.1
  (fillDefaults recs st.2 defaultRecs).take 10

/-- Total `potential_savings` of a recommendation list. -/
def sumPS (l : List RecItem) : ℤ := (l.map RecItem.potential_savings).sum

/-- The final report (displayed-only fields that are merely rounded or
re-sorted copies of the analysis values — `round(_, 2)`, the top-3
`high_cost_services`, the per-service breakdown — are presentation and are
omitted). -/
structure Report where
  project_name : List ℕ
  total_monthly_cost : ℚ
  budget : ℤ
  budget_variance : ℚ
  is_over_budget : Bool
  recommendations : List RecItem
  deriving Repr

/-- `analyzer.analyze_costs_and_generate_recommendations`: `llmOut` is the
result of `query_llama_with_validation` (hence `none` or a validator-accepted
list); `raw_recs = llmOut or []`. -/
def analyze_costs_and_generate_recommendations (p : Profile) (billing : List ARec)
    (llmOut : Option (List RawRec)) : Report :=
  let issql := isSqliteProfile p
  let avg := analysisAvg p billing
  let budget := p.budget_inr_per_month
  let variance := avg - (budget : ℚ)
  let raw := llmOut.getD []
  let finalRecs := _process_recs raw issql
  let totalSave := sumPS finalRecs
  let savePct : ℚ := if avg ≠ 0 then (totalSave : ℚ) / avg * 100 else 0
  let final2 :=
    if 35 < savePct then
      finalRecs.map (fun r =>
        { r with potential_savings := truncQ ((r.potential_savings : ℚ) * (35 / savePct)) })
    else finalRecs
  { project_name := p.name
    total_monthly_cost := avg
    budget := budget
    budget_variance := variance
    is_over_budget := decide (0 < variance)
    recommendations := final2 }

/-! ## Claim C1: SQLite cost redistribution -/

theorem sumCost_cons (r : ARec) (l : List ARec) : sumCost (r :: l) = r.cost_inr + sumCost l := by
  simp [sumCost]

theorem sumCost_filter_split (billing : List ARec) :
    sumCost billing
      = dbCost billing + sumCost (billing.filter (fun r => !decide (r.service = "Database"))) := by
  induction billing with
  | nil => simp [sumCost, dbCost]
  | cons r l ih =>
    unfold dbCost at *
    by_cases h : r.service = "Database" <;>
      simp [List.filter_cons, h, sumCost_cons] <;> linarith [ih]

theorem sumCost_map_bump (l : List ARec) (d : ℚ) :
    sumCost (l.map (fun r =>
        if r.service = "Compute" then { r with cost_inr := r.cost_inr + d } else r))
      = sumCost l + ((l.filter (fun r => decide (r.service = "Compute"))).length : ℚ) * d := by
  induction l with
  | nil => simp [sumCost]
  | cons r t ih =>
    by_cases h : r.service = "Compute" <;>
      simp [List.filter_cons, h, sumCost_cons, ih] <;> ring_nf

theorem dbCost_nonneg (billing : List ARec) (hpos : ∀ r ∈ billing, 0 ≤ r.cost_inr) :
    0 ≤ dbCost billing := by
  unfold dbCost sumCost
  apply List.sum_nonneg
  intro x hx
  obtain ⟨r, hr, rfl⟩ := List.mem_map.1 hx
  exact hpos r (List.mem_of_mem_filter hr)

theorem bump_service (d : ℚ) (r : ARec) :
    ((if r.service = "Compute" then { r with cost_inr := r.cost_inr + d } else r) : ARec).service
      = r.service := by
  split <;> rfl

theorem mem_rest_not_db {billing : List ARec} {r : ARec}
    (hr : r ∈ billing.filter (fun r => !decide (r.service = "Database"))) :
    r.service ≠ "Database" := by
  have := List.of_mem_filter hr
  simpa using this

theorem redistributeDb_no_db (billing : List ARec) :
    ∀ r ∈ redistributeDb billing, r.service ≠ "Database" := by
  intro x hx
  simp only [redistributeDb] at hx
  split at hx
  · obtain ⟨r, hr, rfl⟩ := List.mem_map.1 hx
    rw [bump_service]
    exact mem_rest_not_db hr
  · exact mem_rest_not_db hx

theorem redistributeDb_sum_eq (billing : List ARec) (hpos : ∀ r ∈ billing, 0 ≤ r.cost_inr)
    (hcomp : ∃ r ∈ billing.filter (fun r => !decide (r.service = "Database")),
      r.service = "Compute") :
    sumCost (redistributeDb billing) = sumCost billing := by
  have hsplit := sumCost_filter_split billing
  have hdb := dbCost_nonneg billing hpos
  obtain ⟨r, hr, hrc⟩ := hcomp
  have hmem : r ∈ (billing.filter (fun r => !decide (r.service = "Database"))).filter
      (fun r => decide (r.service = "Compute")) :=
    List.mem_filter.2 ⟨hr, by simpa using hrc⟩
  have hlen : ((billing.filter (fun r => !decide (r.service = "Database"))).filter
      (fun r => decide (r.service = "Compute"))).length ≠ 0 := by
    intro h
    rw [List.length_eq_zero] at h
    rw [h] at hmem
    exact absurd hmem (List.not_mem_nil r)
  simp only [redistributeDb]
  by_cases hpositive : 0 < dbCost billing
  · have hne : (((billing.filter (fun r => !decide (r.service = "Database"))).filter
        (fun r => decide (r.service = "Compute"))).length : ℚ) ≠ 0 :=
      Nat.cast_ne_zero.2 hlen
    rw [if_pos ⟨hlen, hpositive⟩, sumCost_map_bump, mul_comm, div_mul_cancel₀ _ hne]
    linarith
  · have h0 : dbCost billing = 0 := le_antisymm (not_lt.1 hpositive) hdb
    rw [if_neg (fun hc => hpositive hc.2)]
    linarith

theorem redistributeDb_sum_drop (billing : List ARec)
    (hnone : ∀ r ∈ billing.filter (fun r => !decide (r.service = "Database")),
      r.service ≠ "Compute") :
    sumCost (redistributeDb billing) = sumCost billing - dbCost billing := by
  have hsplit := sumCost_filter_split billing
  have hzero : ((billing.filter (fun r => !decide (r.service = "Database"))).filter
      (fun r => decide (r.service = "Compute"))).length = 0 := by
    rw [List.length_eq_zero, List.filter_eq_nil_iff]
    intro r hr
    simpa using hnone r hr
  simp only [redistributeDb]
  rw [if_neg (fun hc => hc.1 hzero)]
  linarith

/-- Claim C1: For an SQLite profile, the redistribution step of
`analyze_costs_and_generate_recommendations` leaves no `Database` record;
when a `Compute` record exists after the removal the total `cost_inr` is
exactly conserved, and when none exists the total drops by exactly the
removed `Database` cost (strictly, when that cost is positive). -/
theorem sqlite_redistribution_spec (p : Profile) (billing : List ARec)
    (hsq : isSqliteProfile p = true) (hpos : ∀ r ∈ billing, 0 ≤ r.cost_inr) :
    (∀ r ∈ sqliteStep p billing, r.service ≠ "Database")
    ∧ ((∃ r ∈ billing.filter (fun r => !decide (r.service = "Database")),
          r.service = "Compute") →
        sumCost (sqliteStep p billing) = sumCost billing)
    ∧ ((∀ r ∈ billing.filter (fun r => !decide (r.service = "Database")),
          r.service ≠ "Compute") →
        sumCost (sqliteStep p billing) = sumCost billing - dbCost billing
        ∧ (0 < dbCost billing → sumCost (sqliteStep p billing) < sumCost billing)) := by
  have hstep : sqliteStep p billing = redistributeDb billing := by
    simp [sqliteStep, hsq]
  rw [hstep]
  refine ⟨redistributeDb_no_db billing, redistributeDb_sum_eq billing hpos, ?_⟩
  intro hnone
  have hd := redistributeDb_sum_drop billing hnone
  exact ⟨hd, fun h => by linarith⟩

/-- Witness for C1 at a concrete SQLite profile and billing set. -/
theorem sqlite_redistribution_spec_witness :
    isSqliteProfile ⟨str "S", 0, [], [(str "database", str "SQLite3")], []⟩ = true
    ∧ sumCost (sqliteStep ⟨str "S", 0, [], [(str "database", str "SQLite3")], []⟩
        [⟨"2025-01", "Database", 10⟩, ⟨"2025-01", "Compute", 5⟩, ⟨"2025-02", "Compute", 5⟩])
      = sumCost [⟨"2025-01", "Database", 10⟩, ⟨"2025-01", "Compute", 5⟩, ⟨"2025-02", "Compute", 5⟩] :=
  ⟨by decide,
    (sqlite_redistribution_spec _ _ (by decide)
        (by intro r hr; fin_cases hr <;> norm_num)).2.1
      (by decide)⟩

/-! ## Claim C9: the deterministic fallback always emits Database records -/

theorem fallback_db_mem (budget : ℤ) :
    ∀ (months : List String) (k : ℕ), ∀ m ∈ months.take k,
      (⟨m, "Database", truncQ ((budget : ℚ) * (3 / 10))⟩ : Bill)
        ∈ (months.flatMap (fallbackMonth budget)).take (5 * k) := by
  intro months
  induction months with
  | nil => intro k m hm; simp at hm
  | cons x xs ih =>
    intro k m hm
    cases k with
    | zero => simp at hm
    | succ j =>
      have hflat : (x :: xs).flatMap (fallbackMonth budget)
          = fallbackMonth budget x ++ xs.flatMap (fallbackMonth budget) := by
        simp
      have hlen : (fallbackMonth budget x).length = 5 := rfl
      have htake : ((x :: xs).flatMap (fallbackMonth budget)).take (5 * (j + 1))
          = fallbackMonth budget x ++ (xs.flatMap (fallbackMonth budget)).take (5 * j) := by
        rw [hflat]
        have : 5 * (j + 1) = (fallbackMonth budget x).length + 5 * j := by
          rw [hlen]; ring
        rw [this, List.take_append]
      rw [htake]
      rcases List.mem_cons.1 hm with rfl | hm2
      · apply List.mem_append_left
        simp [fallbackMonth]
      · exact List.mem_append_right _ (ih j m hm2)

/-- Claim C9: The deterministic billing fallback emits, for every expected
month within the 20-record cap (the first four), a `Database` record costing
`int(budget * 0.3)` — and `generate_mock_billing` uses exactly this fallback
on a failed completion for every profile, SQLite ones included: the fallback
takes no tech-stack input at all. -/
theorem fallback_always_database (p : Profile) (months : List String) (factor : String → ℚ)
    (_hb : 0 ≤ p.budget_inr_per_month) :
    (∀ m ∈ months.take 4,
      (⟨m, "Database", truncQ ((p.budget_inr_per_month : ℚ) * (3 / 10))⟩ : Bill)
        ∈ _generate_fallback p.budget_inr_per_month months)
    ∧ generate_mock_billing p months factor none
        = _generate_fallback p.budget_inr_per_month months := by
  constructor
  · intro m hm
    have h := fallback_db_mem p.budget_inr_per_month months 4 m hm
    have h20 : (5 : ℕ) * 4 = 20 := rfl
    rw [h20] at h
    exact h
  · rfl

/-- Witness for C9 at a concrete SQLite profile, a nonempty month window and
budget 100. -/
theorem fallback_always_database_witness :
    ((⟨"2025-01", "Database", truncQ ((100 : ℚ) * (3 / 10))⟩ : Bill)
      ∈ _generate_fallback 100 ["2025-01", "2025-02"])
    ∧ generate_mock_billing ⟨str "S", 100, [], [(str "database", str "sqlite")], []⟩
        ["2025-01", "2025-02"] (fun _ => 1) none = _generate_fallback 100 ["2025-01", "2025-02"] :=
  ⟨(fallback_always_database ⟨str "S", 100, [], [(str "database", str "sqlite")], []⟩
      ["2025-01", "2025-02"] (fun _ => 1) (by decide)).1 "2025-01" (by decide),
   (fallback_always_database ⟨str "S", 100, [], [(str "database", str "sqlite")], []⟩
      ["2025-01", "2025-02"] (fun _ => 1) (by decide)).2⟩

/-! ## Claims C10 and C4: month window and (non-)emptiness of billing output -/

theorem normalizeBilling_month_mem (budget : ℤ) (months : List String) (factor : String → ℚ)
    (valid : List Bill) :
    ∀ r ∈ normalizeBilling budget months factor valid, r.month ∈ months := by
  intro r hr
  simp only [normalizeBilling] at hr
  have hr2 := List.mem_of_mem_take hr
  obtain ⟨m, hm, hblock⟩ := List.mem_flatMap.1 hr2
  by_cases hempty : (valid.filter (fun x => decide (x.month = m))).isEmpty
  · rw [if_pos hempty] at hblock
    exact absurd hblock (List.not_mem_nil r)
  · rw [if_neg hempty] at hblock
    obtain ⟨v, hvmem, rfl⟩ := List.mem_map.1 hblock
    have hvm : v.month = m := by simpa using (List.mem_filter.1 hvmem).2
    show v.month ∈ months
    rw [hvm]
    exact List.mem_dedup.1 hm

theorem normalizeBilling_out_of_window (budget : ℤ) (months : List String) (factor : String → ℚ)
    (valid : List Bill) (hout : ∀ v ∈ valid, v.month ∉ months) :
    normalizeBilling budget months factor valid = [] := by
  simp only [normalizeBilling]
  rw [List.take_eq_nil_iff]
  right
  rw [List.flatMap_eq_nil_iff]
  intro m hm
  have hfil : valid.filter (fun x => decide (x.month = m)) = [] := by
    rw [List.filter_eq_nil_iff]
    intro v hv
    simp only [decide_eq_true_eq]
    intro heq
    exact hout v hv (heq ▸ List.mem_dedup.1 hm)
  simp [hfil]

theorem normalizeBilling_ne_nil (budget : ℤ) (months : List String) (factor : String → ℚ)
    (valid : List Bill) (v : Bill) (hv : v ∈ valid) (hm : v.month ∈ months) :
    normalizeBilling budget months factor valid ≠ [] := by
  simp only [normalizeBilling]
  intro h
  rw [List.take_eq_nil_iff] at h
  rcases h with h | h
  · exact absurd h (by norm_num)
  · rw [List.flatMap_eq_nil_iff] at h
    have hmem := h v.month (List.mem_dedup.2 hm)
    have hfil : v ∈ valid.filter (fun x => decide (x.month = v.month)) :=
      List.mem_filter.2 ⟨hv, by simp⟩
    by_cases hempty : (valid.filter (fun x => decide (x.month = v.month))).isEmpty
    · rw [List.isEmpty_iff] at hempty
      rw [hempty] at hfil
      exact absurd hfil (List.not_mem_nil v)
    · rw [if_neg hempty, List.map_eq_nil_iff] at hmem
      rw [hmem] at hfil
      exact absurd hfil (List.not_mem_nil v)

theorem fallback_ne_nil (budget : ℤ) (months : List String) (hm : months ≠ []) :
    _generate_fallback budget months ≠ [] := by
  cases months with
  | nil => exact absurd rfl hm
  | cons x xs =>
    intro h
    unfold _generate_fallback at h
    rw [List.take_eq_nil_iff] at h
    rcases h with h | h
    · exact absurd h (by norm_num)
    · rw [List.flatMap_cons, List.append_eq_nil] at h
      exact absurd h.1 (by simp [fallbackMonth])

/-- Claim C10: In the non-fallback path (a usable LLM list with at least one
repaired record), every returned record's month lies in the expected window,
and out-of-window records are silently dropped: when every repaired record
is out of window the function returns the empty list. -/
theorem billing_month_window (p : Profile) (months : List String) (factor : String → ℚ)
    (l : List RawBill) (hv : repairRecs l ≠ []) :
    (∀ r ∈ generate_mock_billing p months factor (some l), r.month ∈ months)
    ∧ ((∀ v ∈ repairRecs l, v.month ∉ months) →
        generate_mock_billing p months factor (some l) = []) := by
  have hne : (repairRecs l).isEmpty = false := List.isEmpty_eq_false.2 hv
  constructor
  · intro r hr
    simp only [generate_mock_billing, hne, Bool.false_eq_true, if_false] at hr
    exact normalizeBilling_month_mem _ _ _ _ r hr
  · intro hout
    simp only [generate_mock_billing, hne, Bool.false_eq_true, if_false]
    exact normalizeBilling_out_of_window _ _ _ _ hout

/-- Witness for C10: a single repaired record dated outside the window. -/
theorem billing_month_window_witness :
    (∀ r ∈ generate_mock_billing ⟨str "P", 5000, [], [], []⟩ ["2025-09", "2025-10"] (fun _ => 1)
        (some [⟨some "1999-01", some "X", some (some 5)⟩]), r.month ∈ ["2025-09", "2025-10"])
    ∧ generate_mock_billing ⟨str "P", 5000, [], [], []⟩ ["2025-09", "2025-10"] (fun _ => 1)
        (some [⟨some "1999-01", some "X", some (some 5)⟩]) = [] :=
  ⟨(billing_month_window _ _ _ _ (by decide)).1,
   (billing_month_window _ _ _ _ (by decide)).2 (by decide)⟩

/-- Counterexample to claim C4: A usable LLM response whose only valid record is
dated outside the expected window makes `generate_mock_billing` return the
empty list: the fallback is not reached because a valid record remains, so
the billing stage can terminate with empty output. -/
theorem generate_mock_billing_empty_cex :
    generate_mock_billing ⟨str "P", 5000, [], [], []⟩
      ["2025-07", "2025-08", "2025-09", "2025-10"] (fun _ => 1)
      (some [⟨some "1999-01", some "Compute", some (some 5)⟩]) = [] := by
  decide

/-- Claim C4 as amended: `generate_mock_billing` returns the empty list exactly
when the response is a usable list, at least one valid record remains after
repair, and every valid record's month is outside the expected window; in
every other situation (fallback on no response or no valid records, or some
valid in-window record) the output is non-empty, given a non-empty month
window. -/
theorem generate_mock_billing_nonempty_amended (p : Profile) (months : List String)
    (factor : String → ℚ) (llmOut : Option (List RawBill)) (hm : months ≠ []) :
    generate_mock_billing p months factor llmOut = [] ↔
      ∃ l, llmOut = some l ∧ repairRecs l ≠ [] ∧ ∀ v ∈ repairRecs l, v.month ∉ months := by
  cases llmOut with
  | none =>
    constructor
    · intro h
      exact absurd h (fallback_ne_nil _ _ hm)
    · rintro ⟨l, hl, -, -⟩
      exact Option.noConfusion hl
  | some l =>
    by_cases he : repairRecs l = []
    · have hemp : (repairRecs l).isEmpty = true := List.isEmpty_iff.2 he
      constructor
      · intro h
        exact absurd (by simpa [generate_mock_billing, hemp] using h)
            (fallback_ne_nil p.budget_inr_per_month months hm)
      · rintro ⟨l2, hl2, hne, -⟩
        cases Option.some.inj hl2
        exact absurd he hne
    · have hemp : (repairRecs l).isEmpty = false := List.isEmpty_eq_false.2 he
      simp only [generate_mock_billing, hemp, Bool.false_eq_true, if_false]
      constructor
      · intro h
        refine ⟨l, rfl, he, ?_⟩
        intro v hv hvm
        exact normalizeBilling_ne_nil p.budget_inr_per_month months factor _ v hv hvm h
      · rintro ⟨l2, hl2, -, hout⟩
        cases Option.some.inj hl2
        exact normalizeBilling_out_of_window _ _ _ _ hout

/-- Witness for C4 (amended): with no usable response the output is
non-empty (the fallback fires). -/
theorem generate_mock_billing_nonempty_amended_witness :
    generate_mock_billing ⟨str "P", 5000, [], [], []⟩ ["2025-09", "2025-10"] (fun _ => 1) none
      ≠ [] := by
  intro h
  obtain ⟨l, hl, -, -⟩ :=
    (generate_mock_billing_nonempty_amended ⟨str "P", 5000, [], [], []⟩ ["2025-09", "2025-10"]
      (fun _ => 1) none (by decide)).mp h
  exact Option.noConfusion hl

/-! ## Claim C6: the `cost_inr` invariant -/

/-- Counterexample to claim C6: The repair step coerces `cost_inr` with
`int(float(_))` but never clamps the sign: a raw record costing `-5`
survives repair with a negative `cost_inr`, so "non-negative after the
repair/drop step" fails. -/
theorem billing_cost_nonneg_cex :
    ∃ r ∈ repairRecs [⟨some "2025-01", some "Compute", some (some (-5))⟩], r.cost_inr < 0 := by
  refine ⟨⟨"2025-01", "Compute", truncQ (-5)⟩, by decide, ?_⟩
  have : truncQ (-5) = -5 := by
    rw [truncQ, if_neg (by norm_num)]
    exact_mod_cast Int.ceil_intCast (α := ℚ) (-5)
  rw [this]
  decide

/-- Claim C6 as amended: `cost_inr` stays an integer through the billing engine
but its sign is only guaranteed from normalization on: after budget
normalization every record costs at least 10, and the analyzer's SQLite
redistribution preserves non-negativity (it can, however, produce
non-integer rational Compute costs, which is why analyzer costs are `ℚ`). -/
theorem billing_cost_invariants_amended :
    (∀ (budget : ℤ) (months : List String) (factor : String → ℚ) (valid : List Bill),
      ∀ r ∈ normalizeBilling budget months factor valid, 10 ≤ r.cost_inr)
    ∧ (∀ billing : List ARec, (∀ r ∈ billing, 0 ≤ r.cost_inr) →
        ∀ r ∈ redistributeDb billing, 0 ≤ r.cost_inr) := by
  constructor
  · intro budget months factor valid r hr
    simp only [normalizeBilling] at hr
    have hr2 := List.mem_of_mem_take hr
    obtain ⟨m, hm, hblock⟩ := List.mem_flatMap.1 hr2
    by_cases hempty : (valid.filter (fun x => decide (x.month = m))).isEmpty
    · rw [if_pos hempty] at hblock
      exact absurd hblock (List.not_mem_nil r)
    · rw [if_neg hempty] at hblock
      obtain ⟨v, hvmem, rfl⟩ := List.mem_map.1 hblock
      exact le_max_left 10 _
  · intro billing hpos r hr
    simp only [redistributeDb] at hr
    split at hr <;> rename_i hc
    · obtain ⟨v, hv, rfl⟩ := List.mem_map.1 hr
      have hv0 : 0 ≤ v.cost_inr := hpos v (List.mem_of_mem_filter hv)
      split
      · have hdiv : 0 ≤ dbCost billing /
            (((billing.filter (fun r => !decide (r.service = "Database"))).filter
              (fun r => decide (r.service = "Compute"))).length : ℚ) :=
          div_nonneg (le_of_lt hc.2) (Nat.cast_nonneg _)
        simpa using add_nonneg hv0 hdiv
      · exact hv0
    · exact hpos r (List.mem_of_mem_filter hr)

/-- Witness for C6 (amended) at concrete billing data. -/
theorem billing_cost_invariants_amended_witness :
    (∀ r ∈ normalizeBilling 100 ["2025-01"] (fun _ => 1) [⟨"2025-01", "Compute", 50⟩],
      10 ≤ r.cost_inr)
    ∧ (∀ r ∈ redistributeDb [⟨"m", "Database", 3⟩, ⟨"m", "Compute", 1⟩], 0 ≤ r.cost_inr) :=
  ⟨fun r hr => billing_cost_invariants_amended.1 100 _ _ _ r hr,
   fun r hr => billing_cost_invariants_amended.2 _ (by intro x hx; fin_cases hx <;> norm_num) r hr⟩

/-! ## Claims C3 and C5: size and dedup invariants of `_process_recs` -/

theorem cleanStep_cases (issqlite : Bool) (st : List RecItem × List (List ℕ)) (r : RawRec) :
    cleanStep issqlite st r = st ∨
      ∃ item, cleanStep issqlite st r = (st.1 ++ [item], st.2 ++ [recKey item])
        ∧ recKey item ∉ st.2 := by
  simp only [cleanStep]
  split
  · left; rfl
  split
  · left; rfl
  split
  · left; rfl
  split
  · left; rfl
  split
  · right
    exact ⟨mkItem r, rfl, by assumption⟩
  · left; rfl

theorem cleanFold_inv (issqlite : Bool) (raw : List RawRec) :
    ∀ st : List RecItem × List (List ℕ),
      st.2.length = st.1.length →
      st.1.Pairwise (fun a b => recKey a ≠ recKey b) →
      (∀ i ∈ st.1, recKey i ∈ st.2) →
      (raw.foldl (cleanStep issqlite) st).2.length = (raw.foldl (cleanStep issqlite) st).1.length
      ∧ (raw.foldl (cleanStep issqlite) st).1.Pairwise (fun a b => recKey a ≠ recKey b)
      ∧ ∀ i ∈ (raw.foldl (cleanStep issqlite) st).1,
          recKey i ∈ (raw.foldl (cleanStep issqlite) st).2 := by
  induction raw with
  | nil => intro st h1 h2 h3; exact ⟨h1, h2, h3⟩
  | cons r t ih =>
    intro st h1 h2 h3
    rw [List.foldl_cons]
    rcases cleanStep_cases issqlite st r with heq | ⟨item, heq, hnot⟩
    · rw [heq]; exact ih st h1 h2 h3
    · rw [heq]
      apply ih
      · simp [h1]
      · rw [List.pairwise_append]
        refine ⟨h2, by simp, ?_⟩
        intro a ha b hb
        rw [List.mem_singleton] at hb
        subst hb
        intro hkey
        exact hnot (hkey ▸ h3 a ha)
      · intro i hi
        rcases List.mem_append.1 hi with hi | hi
        · exact List.mem_append_left _ (h3 i hi)
        · rw [List.mem_singleton] at hi
          subst hi
          exact List.mem_append_right _ (List.mem_singleton_self _)

theorem insertDescPS_perm (x : RecItem) (l : List RecItem) : List.Perm (insertDescPS x l) (x :: l) := by
  induction l with
  | nil => rfl
  | cons y ys ih =>
    simp only [insertDescPS]
    split
    · rfl
    · exact ((ih.cons y).trans (List.Perm.swap x y ys))

theorem sortDescPS_perm (l : List RecItem) : List.Perm (sortDescPS l) l := by
  have haux : ∀ (t a : List RecItem),
      List.Perm (t.foldl (fun a x => insertDescPS x a) a) (t ++ a) := by
    intro t
    induction t with
    | nil => intro a; simp
    | cons x xs ih =>
      intro a
      rw [List.foldl_cons]
      refine (ih (insertDescPS x a)).trans ?_
      refine (List.Perm.append_left xs (insertDescPS_perm x a)).trans ?_
      exact List.perm_middle
  simpa using haux l []

theorem length_filter_not_add {α : Type} (p : α → Bool) (l : List α) :
    (l.filter (fun x => !p x)).length + (l.filter p).length = l.length := by
  induction l with
  | nil => rfl
  | cons x t ih =>
    by_cases h : p x = true <;> simp [List.filter_cons, h] <;> omega

theorem blocked_le_seen (ds : List RecItem) (seen : List (List ℕ))
    (hnodup : (ds.map defaultKey).Nodup) :
    (ds.filter (fun d => decide (defaultKey d ∈ seen))).length ≤ seen.length := by
  have hsub : List.Sublist ((ds.filter (fun d => decide (defaultKey d ∈ seen))).map defaultKey)
      (ds.map defaultKey) := (List.filter_sublist ds).map defaultKey
  have hnd : ((ds.filter (fun d => decide (defaultKey d ∈ seen))).map defaultKey).Nodup :=
    hnodup.sublist hsub
  calc (ds.filter (fun d => decide (defaultKey d ∈ seen))).length
      = ((ds.filter (fun d => decide (defaultKey d ∈ seen))).map defaultKey).length := by
        rw [List.length_map]
    _ = ((ds.filter (fun d => decide (defaultKey d ∈ seen))).map defaultKey).toFinset.card :=
        (List.toFinset_card_of_nodup hnd).symm
    _ ≤ seen.toFinset.card := by
        apply Finset.card_le_card
        intro k hk
        rw [List.mem_toFinset] at hk ⊢
        obtain ⟨d, hd, rfl⟩ := List.mem_map.1 hk
        simpa using (List.mem_filter.1 hd).2
    _ ≤ seen.length := seen.toFinset_card_le

theorem fillDefaults_length (ds : List RecItem) :
    ∀ (recs : List RecItem) (seen : List (List ℕ)),
      (ds.map defaultKey).Nodup →
      min 6 (recs.length + (ds.filter (fun d => !decide (defaultKey d ∈ seen))).length)
        ≤ (fillDefaults recs seen ds).length := by
  induction ds with
  | nil =>
    intro recs seen _
    simp only [fillDefaults, List.filter_nil, List.length_nil, Nat.add_zero]
    exact min_le_right 6 _
  | cons d t ih =>
    intro recs seen hnodup
    have hnodup2 : (t.map defaultKey).Nodup := by
      rw [List.map_cons] at hnodup
      exact hnodup.of_cons
    simp only [fillDefaults]
    split
    · rename_i h6
      exact le_trans (min_le_left _ _) h6
    · rename_i h6
      by_cases hk : defaultKey d ∈ seen
      · rw [if_pos hk]
        have hcnt : (t.filter (fun d => !decide (defaultKey d ∈ seen))).length
            = ((d :: t).filter (fun d => !decide (defaultKey d ∈ seen))).length := by
          simp [List.filter_cons, hk]
        have := ih recs seen hnodup2
        omega
      · rw [if_neg hk]
        have hkeys : ∀ x ∈ t, defaultKey x ≠ defaultKey d := by
          intro x hx heq
          rw [List.map_cons, List.nodup_cons] at hnodup
          exact hnodup.1 (heq ▸ List.mem_map_of_mem defaultKey hx)
        have hcnt : (t.filter (fun x => !decide (defaultKey x ∈ seen ++ [defaultKey d]))).length
            = (t.filter (fun x => !decide (defaultKey x ∈ seen))).length := by
          apply congrArg
          apply List.filter_congr
          intro x hx
          simp [List.mem_append, hkeys x hx]
        have hcons : ((d :: t).filter (fun x => !decide (defaultKey x ∈ seen))).length
            = 1 + (t.filter (fun x => !decide (defaultKey x ∈ seen))).length := by
          simp [List.filter_cons, hk]
          omega
        have := ih (recs ++ [d]) (seen ++ [defaultKey d]) hnodup2
        rw [hcnt] at this
        simp only [List.length_append, List.length_cons, List.length_nil] at this
        omega

theorem fillDefaults_ge (ds : List RecItem) :
    ∀ (recs : List RecItem) (seen : List (List ℕ)),
      recs.length ≤ (fillDefaults recs seen ds).length := by
  induction ds with
  | nil => intro recs seen; exact le_refl _
  | cons d t ih =>
    intro recs seen
    simp only [fillDefaults]
    split
    · exact le_refl _
    · split
      · exact ih recs seen
      · refine le_trans ?_ (ih (recs ++ [d]) (seen ++ [defaultKey d]))
        simp

theorem fillDefaults_pairwise (ds : List RecItem) :
    ∀ (recs : List RecItem) (seen : List (List ℕ)),
      (∀ d ∈ ds, recKey d = defaultKey d) →
      recs.Pairwise (fun a b => recKey a ≠ recKey b) →
      (∀ i ∈ recs, recKey i ∈ seen) →
      (fillDefaults recs seen ds).Pairwise (fun a b => recKey a ≠ recKey b) := by
  induction ds with
  | nil => intro recs seen _ h2 _; exact h2
  | cons d t ih =>
    intro recs seen hdk h2 h3
    have hdk2 : ∀ x ∈ t, recKey x = defaultKey x := fun x hx => hdk x (List.mem_cons_of_mem d hx)
    simp only [fillDefaults]
    split
    · exact h2
    · split
      · exact ih recs seen hdk2 h2 h3
      · rename_i h6 hk
        apply ih (recs ++ [d]) (seen ++ [defaultKey d]) hdk2
        · rw [List.pairwise_append]
          refine ⟨h2, by simp, ?_⟩
          intro a ha b hb
          rw [List.mem_singleton] at hb
          subst hb
          intro heq
          rw [hdk b (List.mem_cons_self b t)] at heq
          exact hk (heq ▸ h3 a ha)
        · intro i hi
          rcases List.mem_append.1 hi with hi | hi
          · exact List.mem_append_left _ (h3 i hi)
          · rw [List.mem_singleton] at hi
            subst hi
            rw [hdk i (List.mem_cons_self i t)]
            exact List.mem_append_right _ (List.mem_singleton_self _)

/-- Claim C3: `_process_recs` always returns between 6 and 10 items: at most
10 via the final truncation, and at least 6 because the retained items block
at most one default key apiece, so enough of the 7 defaults stay available.
(The claim's proviso that some default key be fresh is automatic.) -/
theorem process_recs_count (raw : List RawRec) (issqlite : Bool) :
    6 ≤ (_process_recs raw issqlite).length ∧ (_process_recs raw issqlite).length ≤ 10 := by
  simp only [_process_recs]
  constructor
  · have hinv := cleanFold_inv issqlite raw ([], []) rfl List.Pairwise.nil (by simp)
    set st := raw.foldl (cleanStep issqlite) ([], []) with hst
    have hlen : st.2.length = st.1.length := hinv.1
    have hsort : (sortDescPS st.1).length = st.1.length := (sortDescPS_perm st.1).length_eq
    have hnodup : (defaultRecs.map defaultKey).Nodup := by decide
    have hblock := blocked_le_seen defaultRecs st.2 hnodup
    have hsplit := length_filter_not_add (fun d => decide (defaultKey d ∈ st.2)) defaultRecs
    have hd7 : defaultRecs.length = 7 := rfl
    have hfill := fillDefaults_length defaultRecs (sortDescPS st.1) st.2 hnodup
    have htake : ((fillDefaults (sortDescPS st.1) st.2 defaultRecs).take 10).length
        = min 10 (fillDefaults (sortDescPS st.1) st.2 defaultRecs).length := by
      rw [List.length_take]
    omega
  · rw [List.length_take]
    omega

/-- Claim C5: No two items returned by `_process_recs` share a dedup key (the
lowercased 15-character prefix of the stripped title): the retained LLM
items are key-guarded by `seen`, and appended defaults are guarded by the
same set. -/
theorem process_recs_dedup (raw : List RawRec) (issqlite : Bool) :
    (_process_recs raw issqlite).Pairwise (fun a b => recKey a ≠ recKey b) := by
  simp only [_process_recs]
  have hinv := cleanFold_inv issqlite raw ([], []) rfl List.Pairwise.nil (by simp)
  set st := raw.foldl (cleanStep issqlite) ([], []) with hst
  have hperm := sortDescPS_perm st.1
  have hsym : ∀ {x y : RecItem}, (recKey x ≠ recKey y) → (recKey y ≠ recKey x) :=
    fun h heq => h heq.symm
  have hsortpair : (sortDescPS st.1).Pairwise (fun a b => recKey a ≠ recKey b) :=
    (hperm.pairwise_iff hsym).2 hinv.2.1
  have hsortmem : ∀ i ∈ sortDescPS st.1, recKey i ∈ st.2 :=
    fun i hi => hinv.2.2 i (hperm.mem_iff.1 hi)
  have hdk : ∀ d ∈ defaultRecs, recKey d = defaultKey d := by decide
  have hfill := fillDefaults_pairwise defaultRecs (sortDescPS st.1) st.2 hdk hsortpair hsortmem
  exact hfill.sublist (List.take_sublist 10 _)

/-! ## Claim C2: the 35% savings cap -/

theorem sumPS_cons (r : RecItem) (l : List RecItem) :
    sumPS (r :: l) = r.potential_savings + sumPS l := by
  simp [sumPS]

theorem truncQ_le_add_one (q : ℚ) : ((truncQ q : ℤ) : ℚ) ≤ q + 1 := by
  unfold truncQ
  split
  · have := Int.floor_le q
    linarith
  · exact le_of_lt (Int.ceil_lt_add_one q)

theorem sumPS_map_trunc_le (recs : List RecItem) (s : ℚ) :
    ((sumPS (recs.map (fun r =>
        { r with potential_savings := truncQ ((r.potential_savings : ℚ) * s) })) : ℚ))
      ≤ s * (sumPS recs : ℚ) + recs.length := by
  induction recs with
  | nil => simp [sumPS]
  | cons r t ih =>
    rw [List.map_cons, sumPS_cons, sumPS_cons]
    simp only [List.length_cons]
    push_cast
    have h1 := truncQ_le_add_one ((r.potential_savings : ℚ) * s)
    have hexp : s * ((r.potential_savings : ℚ) + (sumPS t : ℚ))
        = (r.potential_savings : ℚ) * s + s * (sumPS t : ℚ) := by ring
    linarith [h1, ih]

theorem process_recs_len_le (raw : List RawRec) (issqlite : Bool) :
    (_process_recs raw issqlite).length ≤ 10 := by
  simp only [_process_recs]
  rw [List.length_take]
  omega

/-- Claim C2 as amended: For a positive average monthly cost the final total
savings is at most 35% of the average plus one truncation unit per item
(at most 10 items): the cap scales by the common ratio and truncates each
item toward zero, which makes the aggregate at most — not exactly — the 35%
target, and can overshoot only through the per-item truncation of
negative-savings governance items. -/
theorem analyze_savings_cap_amended (p : Profile) (billing : List ARec)
    (llmOut : Option (List RawRec)) (havg : 0 < analysisAvg p billing) :
    ((sumPS (analyze_costs_and_generate_recommendations p billing llmOut).recommendations : ℚ))
      ≤ 35 / 100 * analysisAvg p billing + 10 := by
  have hne : analysisAvg p billing ≠ 0 := ne_of_gt havg
  simp only [analyze_costs_and_generate_recommendations, if_pos hne]
  set avg := analysisAvg p billing with havgdef
  set recs := _process_recs (llmOut.getD []) (isSqliteProfile p) with hrecs
  have hlen : recs.length ≤ 10 := process_recs_len_le _ _
  split
  · rename_i h35
    have htotpos : (0 : ℚ) < (sumPS recs : ℚ) := by
      by_contra hle
      push_neg at hle
      have : (sumPS recs : ℚ) / avg * 100 ≤ 0 := by
        apply mul_nonpos_of_nonpos_of_nonneg
        · exact div_nonpos_of_nonpos_of_nonneg hle (le_of_lt havg)
        · norm_num
      linarith
    have hscale : 35 / ((sumPS recs : ℚ) / avg * 100) * (sumPS recs : ℚ)
        = 35 / 100 * avg := by
      field_simp
      ring
    calc ((sumPS (recs.map (fun r =>
          { r with potential_savings :=
              truncQ ((r.potential_savings : ℚ) * (35 / ((sumPS recs : ℚ) / avg * 100))) })) : ℚ))
        ≤ 35 / ((sumPS recs : ℚ) / avg * 100) * (sumPS recs : ℚ) + recs.length :=
          sumPS_map_trunc_le recs _
      _ = 35 / 100 * avg + recs.length := by rw [hscale]
      _ ≤ 35 / 100 * avg + 10 := by
          have : (recs.length : ℚ) ≤ 10 := by exact_mod_cast hlen
          linarith
  · rename_i h35
    push_neg at h35
    have hbound : (sumPS recs : ℚ) ≤ 35 / 100 * avg := by
      rw [div_mul_eq_mul_div, div_le_iff₀ havg] at h35
      linarith
    linarith

theorem sumPS_map_trunc_eq (L : List RecItem) (s : ℚ) :
    sumPS (L.map (fun r => { r with potential_savings := truncQ ((r.potential_savings : ℚ) * s) }))
      = ((L.map RecItem.potential_savings).map (fun v : ℤ => truncQ ((v : ℚ) * s))).sum := by
  induction L with
  | nil => rfl
  | cons r t ih =>
    rw [List.map_cons, sumPS_cons, List.map_cons, List.map_cons, List.sum_cons, ih]

/-- Concrete analyzer fixtures: a non-SQLite profile, one billing record of
cost 10 (average monthly cost 10), and a validator-passing 5-item LLM list
whose only surviving item saves 7. -/
def pC2 : Profile := ⟨str "P", 0, [], [], []⟩

def billingC2 : List ARec := [⟨"2025-01", "Compute", 10⟩]

def rawC2 : List RawRec :=
  [ ⟨some (str "Adopt spot instances"), some (str "Compute"), some 100, some 7, none, none⟩,
    ⟨some (str "Bench item one"), some (str "Compute"), some 0, some 0, none, none⟩,
    ⟨some (str "Check item two"), some (str "Compute"), some 0, some 0, none, none⟩,
    ⟨some (str "Drill item three"), some (str "Compute"), some 0, some 0, none, none⟩,
    ⟨some (str "Extra item four"), some (str "Compute"), some 0, some 0, none, none⟩ ]

theorem analysisAvg_pC2 : analysisAvg pC2 billingC2 = 10 := by
  have hsql : isSqliteProfile pC2 = false := by decide
  have hm : (((billingC2).map ARec.month).dedup).length = 1 := by decide
  simp only [analysisAvg, avgMonthlyOf, sqliteStep, hsql, Bool.false_eq_true, if_false, hm]
  norm_num [sumCost, billingC2]

theorem sumPS_final_pC2 :
    sumPS (analyze_costs_and_generate_recommendations pC2 billingC2 (some rawC2)).recommendations
      = 2 := by
  have hne : analysisAvg pC2 billingC2 ≠ 0 := by rw [analysisAvg_pC2]; norm_num
  have hsum : sumPS (_process_recs rawC2 false) = 707 := by decide
  have hps : (_process_recs rawC2 false).map RecItem.potential_savings
      = [7, 0, 0, 0, 200, 500] := by decide
  have hsql2 : isSqliteProfile pC2 = false := by decide
  simp only [analyze_costs_and_generate_recommendations, if_pos hne, Option.getD_some, hsql2]
  rw [hsum, analysisAvg_pC2]
  rw [if_pos (show (35 : ℚ) < ((707 : ℤ) : ℚ) / 10 * 100 by norm_num)]
  rw [sumPS_map_trunc_eq, hps]
  norm_num [truncQ]

/-- Counterexample to claim C2: A validator-passing run with average monthly cost
10 and raw savings 707 (7070% of the average, so the cap fires) ends with
total savings 2, not 3.5: the cap does not make the aggregate fraction equal
exactly 35%, because each scaled value is truncated toward zero. -/
theorem analyze_savings_cap_cex :
    validateRecs (isSqliteProfile pC2) rawC2 = true
    ∧ 0 < analysisAvg pC2 billingC2
    ∧ 35 < ((sumPS (_process_recs rawC2 (isSqliteProfile pC2)) : ℚ))
        / analysisAvg pC2 billingC2 * 100
    ∧ ((sumPS (analyze_costs_and_generate_recommendations pC2 billingC2
          (some rawC2)).recommendations : ℚ))
      ≠ 35 / 100 * analysisAvg pC2 billingC2 := by
  have hsql : isSqliteProfile pC2 = false := by decide
  refine ⟨by decide, ?_, ?_, ?_⟩
  · rw [analysisAvg_pC2]; norm_num
  · rw [hsql, analysisAvg_pC2]
    rw [show sumPS (_process_recs rawC2 false) = 707 from by decide]
    norm_num
  · rw [sumPS_final_pC2, analysisAvg_pC2]
    norm_num

/-- Witness for C2 (amended) at the same concrete analyzer run. -/
theorem analyze_savings_cap_amended_witness :
    0 < analysisAvg pC2 billingC2
    ∧ ((sumPS (analyze_costs_and_generate_recommendations pC2 billingC2
          none).recommendations : ℚ))
      ≤ 35 / 100 * analysisAvg pC2 billingC2 + 10 :=
  ⟨by rw [analysisAvg_pC2]; norm_num,
   analyze_savings_cap_amended pC2 billingC2 none (by rw [analysisAvg_pC2]; norm_num)⟩

/-! ## Claim C8: the validated query loop -/

theorem queryLoopAux_spec {D : Type} (oracle : String → Option D) (truthy : D → Bool)
    (validator : D → Bool × String) (base : String) :
    ∀ (fuel : ℕ) (s : String),
      (queryLoopAux oracle truthy validator base fuel s).2 ≤ fuel
      ∧ (∀ d, (queryLoopAux oracle truthy validator base fuel s).1 = some d →
          ∃ i < fuel, oracle ((stepPrompt oracle truthy validator base)^[i] s) = some d
            ∧ truthy d = true ∧ (validator d).1 = true
            ∧ ∀ j < i, attemptOk oracle truthy validator
                ((stepPrompt oracle truthy validator base)^[j] s) = false)
      ∧ ((queryLoopAux oracle truthy validator base fuel s).1 = none →
          ∀ i < fuel, attemptOk oracle truthy validator
            ((stepPrompt oracle truthy validator base)^[i] s) = false) := by
  intro fuel
  induction fuel with
  | zero =>
    intro s
    refine ⟨le_refl 0, ?_, ?_⟩
    · intro d hd
      exact absurd hd (by simp [queryLoopAux])
    · intro _ i hi
      exact absurd hi (Nat.not_lt_zero i)
  | succ fuel ih =>
    intro s
    cases h : oracle s with
    | some d0 =>
      cases ht : truthy d0 with
      | true =>
        cases hv : (validator d0).1 with
        | true =>
          have hres : queryLoopAux oracle truthy validator base (fuel + 1) s = (some d0, 1) := by
            simp [queryLoopAux, h, ht, hv]
          rw [hres]
          refine ⟨by omega, ?_, ?_⟩
          · intro d hd
            cases Option.some.inj hd
            exact ⟨0, by omega, by simpa using h, ht, hv, fun j hj => absurd hj (Nat.not_lt_zero j)⟩
          · intro hnone
            exact absurd hnone (by simp)
        | false =>
          have hstep : stepPrompt oracle truthy validator base s
              = retryPrompt base (validator d0).2 := by
            simp [stepPrompt, h, ht, hv]
          have hok : attemptOk oracle truthy validator s = false := by
            simp [attemptOk, h, ht, hv]
          have hres : queryLoopAux oracle truthy validator base (fuel + 1) s
              = ((queryLoopAux oracle truthy validator base fuel
                  (retryPrompt base (validator d0).2)).1,
                 (queryLoopAux oracle truthy validator base fuel
                  (retryPrompt base (validator d0).2)).2 + 1) := by
            simp [queryLoopAux, h, ht, hv]
          obtain ⟨ihc, ihs, ihn⟩ := ih (retryPrompt base (validator d0).2)
          rw [hres]
          refine ⟨by omega, ?_, ?_⟩
          · intro d hd
            obtain ⟨i, hi, hor, htr, hva, hprev⟩ := ihs d hd
            refine ⟨i + 1, by omega, ?_, htr, hva, ?_⟩
            · rw [Function.iterate_succ_apply, hstep]
              exact hor
            · intro j hj
              cases j with
              | zero => simpa using hok
              | succ j2 =>
                rw [Function.iterate_succ_apply, hstep]
                exact hprev j2 (by omega)
          · intro hnone i hi
            cases i with
            | zero => simpa using hok
            | succ i2 =>
              rw [Function.iterate_succ_apply, hstep]
              exact ihn hnone i2 (by omega)
      | false =>
        have hstep : stepPrompt oracle truthy validator base s = notJsonPrompt base := by
          simp [stepPrompt, h, ht]
        have hok : attemptOk oracle truthy validator s = false := by
          simp [attemptOk, h, ht]
        have hres : queryLoopAux oracle truthy validator base (fuel + 1) s
            = ((queryLoopAux oracle truthy validator base fuel (notJsonPrompt base)).1,
               (queryLoopAux oracle truthy validator base fuel (notJsonPrompt base)).2 + 1) := by
          simp [queryLoopAux, h, ht]
        obtain ⟨ihc, ihs, ihn⟩ := ih (notJsonPrompt base)
        rw [hres]
        refine ⟨by omega, ?_, ?_⟩
        · intro d hd
          obtain ⟨i, hi, hor, htr, hva, hprev⟩ := ihs d hd
          refine ⟨i + 1, by omega, ?_, htr, hva, ?_⟩
          · rw [Function.iterate_succ_apply, hstep]
            exact hor
          · intro j hj
            cases j with
            | zero => simpa using hok
            | succ j2 =>
              rw [Function.iterate_succ_apply, hstep]
              exact hprev j2 (by omega)
        · intro hnone i hi
          cases i with
          | zero => simpa using hok
          | succ i2 =>
            rw [Function.iterate_succ_apply, hstep]
            exact ihn hnone i2 (by omega)
    | none =>
      have hstep : stepPrompt oracle truthy validator base s = notJsonPrompt base := by
        simp [stepPrompt, h]
      have hok : attemptOk oracle truthy validator s = false := by
        simp [attemptOk, h]
      have hres : queryLoopAux oracle truthy validator base (fuel + 1) s
          = ((queryLoopAux oracle truthy validator base fuel (notJsonPrompt base)).1,
             (queryLoopAux oracle truthy validator base fuel (notJsonPrompt base)).2 + 1) := by
        simp [queryLoopAux, h]
      obtain ⟨ihc, ihs, ihn⟩ := ih (notJsonPrompt base)
      rw [hres]
      refine ⟨by omega, ?_, ?_⟩
      · intro d hd
        obtain ⟨i, hi, hor, htr, hva, hprev⟩ := ihs d hd
        refine ⟨i + 1, by omega, ?_, htr, hva, ?_⟩
        · rw [Function.iterate_succ_apply, hstep]
          exact hor
        · intro j hj
          cases j with
          | zero => simpa using hok
          | succ j2 =>
            rw [Function.iterate_succ_apply, hstep]
            exact hprev j2 (by omega)
      · intro hnone i hi
        cases i with
        | zero => simpa using hok
        | succ i2 =>
          rw [Function.iterate_succ_apply, hstep]
          exact ihn hnone i2 (by omega)

/-- Claim C8 as amended: The validated query loop performs at most `N + 1`
completion-and-extraction attempts in sequence and returns the payload of
the earliest attempt whose extracted value is *truthy* (Python `if data:`)
and validator-accepted; it returns `None` when no attempt within the budget
yields such a payload.  (Falsy extracted values — `[]`, `{}`, `0`, `""` — are
treated like extraction failures and never reach the validator.) -/
theorem query_llama_with_validation_spec {D : Type} (oracle : String → Option D)
    (truthy : D → Bool) (validator : D → Bool × String) (prompt : String) (N : ℕ) :
    (query_llama_with_validation oracle truthy validator prompt N).2 ≤ N + 1
    ∧ (∀ d, (query_llama_with_validation oracle truthy validator prompt N).1 = some d →
        ∃ i < N + 1, oracle ((stepPrompt oracle truthy validator prompt)^[i] prompt) = some d
          ∧ truthy d = true ∧ (validator d).1 = true
          ∧ ∀ j < i, attemptOk oracle truthy validator
              ((stepPrompt oracle truthy validator prompt)^[j] prompt) = false)
    ∧ ((query_llama_with_validation oracle truthy validator prompt N).1 = none →
        ∀ i < N + 1, attemptOk oracle truthy validator
          ((stepPrompt oracle truthy validator prompt)^[i] prompt) = false) :=
  queryLoopAux_spec oracle truthy validator prompt (N + 1) prompt

/-- Counterexample to claim C8: With an endpoint that always yields the (falsy)
empty list and a validator that accepts everything, every extraction
succeeds with a validator-acceptable payload, yet the loop returns `None`:
`if data:` rejects falsy payloads before the validator ever runs, so "the
first extracted payload that the validator accepts" is not returned. -/
theorem query_llama_falsy_cex :
    (query_llama_with_validation (fun _ => some ([] : List ℕ))
        (fun l => !l.isEmpty) (fun _ => (true, "")) "p" 3).1 = none
    ∧ (fun (_ : String) => some ([] : List ℕ)) "p" = some []
    ∧ ((fun (_ : List ℕ) => (true, "")) ([] : List ℕ)).1 = true :=
  ⟨rfl, rfl, rfl⟩

/-- Concrete retry-loop fixtures: attempt 0 extracts an invalid payload,
every later attempt a valid one. -/
def oracleC8 : String → Option ℕ := fun p => if p = "p" then some 0 else some 1

def truthyC8 : ℕ → Bool := fun _ => true

def validatorC8 : ℕ → Bool × String := fun n => (decide (n = 1), "bad")

/-- Witness for C8 (amended): the loop accepts on the second attempt, within
the `3 + 1` budget, with the first attempt rejected. -/
theorem query_llama_with_validation_spec_witness :
    (query_llama_with_validation oracleC8 truthyC8 validatorC8 "p" 3).2 ≤ 4
    ∧ ∃ i < 4, oracleC8 ((stepPrompt oracleC8 truthyC8 validatorC8 "p")^[i] "p") = some 1
        ∧ truthyC8 1 = true ∧ (validatorC8 1).1 = true
        ∧ ∀ j < i, attemptOk oracleC8 truthyC8 validatorC8
            ((stepPrompt oracleC8 truthyC8 validatorC8 "p")^[j] "p") = false :=
  ⟨(query_llama_with_validation_spec oracleC8 truthyC8 validatorC8 "p" 3).1,
   (query_llama_with_validation_spec oracleC8 truthyC8 validatorC8 "p" 3).2.1 1 rfl⟩

/-! ## Claim C7: idempotence of the profile sanitizer -/

theorem chLower_chLower (c : ℕ) : chLower (chLower c) = chLower c := by
  unfold chLower chIsUpper
  split_ifs <;> omega

theorem chLower_chUpper (c : ℕ) : chLower (chUpper c) = chLower c := by
  unfold chLower chUpper chIsUpper chIsLower
  split_ifs <;> omega

theorem chUpper_chUpper (c : ℕ) : chUpper (chUpper c) = chUpper c := by
  unfold chUpper chIsLower
  split_ifs <;> omega

theorem chIsAlpha_chLower (c : ℕ) : chIsAlpha (chLower c) = chIsAlpha c := by
  unfold chIsAlpha chLower chIsUpper chIsLower
  split_ifs <;> simp only [decide_eq_decide] <;> omega

theorem chIsAlpha_chUpper (c : ℕ) : chIsAlpha (chUpper c) = chIsAlpha c := by
  unfold chIsAlpha chUpper chIsUpper chIsLower
  split_ifs <;> simp only [decide_eq_decide] <;> omega

theorem lowerL_pyTitleAux (l : List ℕ) : ∀ b, lowerL (pyTitleAux b l) = lowerL l := by
  induction l with
  | nil => intro b; rfl
  | cons c cs ih =>
    intro b
    have ih2 : ∀ b2, List.map chLower (pyTitleAux b2 cs) = List.map chLower cs := by
      intro b2
      simpa [lowerL] using ih b2
    by_cases ha : chIsAlpha c = true <;> cases b <;>
      simp [pyTitleAux, ha, lowerL, chLower_chLower, chLower_chUpper, ih2]

theorem lowerL_pyTitle (l : List ℕ) : lowerL (pyTitle l) = lowerL l :=
  lowerL_pyTitleAux l false

theorem pyTitleAux_idem (l : List ℕ) : ∀ b, pyTitleAux b (pyTitleAux b l) = pyTitleAux b l := by
  induction l with
  | nil => intro b; rfl
  | cons c cs ih =>
    intro b
    by_cases ha : chIsAlpha c = true
    · cases b
      · have hu : chIsAlpha (chUpper c) = true := by rw [chIsAlpha_chUpper]; exact ha
        simp [pyTitleAux, ha, hu, chUpper_chUpper, ih true]
      · have hu : chIsAlpha (chLower c) = true := by rw [chIsAlpha_chLower]; exact ha
        simp [pyTitleAux, ha, hu, chLower_chLower, ih true]
    · have ha2 : chIsAlpha c = false := by simpa using ha
      simp [pyTitleAux, ha2, ih false]

theorem pyTitle_idem (l : List ℕ) : pyTitle (pyTitle l) = pyTitle l :=
  pyTitleAux_idem l false

theorem processNfr_self (nfr tl x : List ℕ) (hx : x ∈ processNfr nfr tl) :
    processNfr x tl = [x] := by
  simp only [processNfr] at hx
  split at hx <;> rename_i h1
  · rw [List.mem_singleton] at hx
    subst hx
    simp only [processNfr]
    rw [if_pos h1]
  · split at hx <;> rename_i h2
    · rw [List.mem_singleton] at hx
      subst hx
      have hclean : stripL (lowerL (pyTitle nfr)) = stripL (lowerL nfr) := by
        rw [lowerL_pyTitle]
      simp only [processNfr, hclean]
      rw [if_neg h1, if_pos h2, pyTitle_idem]
    · split at hx <;> rename_i h3
      · rw [List.mem_singleton] at hx
        subst hx
        simp only [processNfr]
        rw [if_neg h1, if_neg h2, if_pos h3]
      · exact absurd hx (List.not_mem_nil x)

theorem flatMap_processNfr_self (tl : List ℕ) (L : List (List ℕ))
    (h : ∀ x ∈ L, processNfr x tl = [x]) :
    L.flatMap (fun n => processNfr n tl) = L := by
  induction L with
  | nil => rfl
  | cons a t ih =>
    rw [List.flatMap_cons, h a (List.mem_cons_self a t),
      ih (fun x hx => h x (List.mem_cons_of_mem _ hx)), List.singleton_append]

theorem nfrs_idem (tl : List ℕ) (nfrs : List (List ℕ)) :
    (((nfrs.flatMap (fun n => processNfr n tl)).dedup).flatMap
        (fun n => processNfr n tl)).dedup
      = (nfrs.flatMap (fun n => processNfr n tl)).dedup := by
  have hself : ∀ x ∈ (nfrs.flatMap (fun n => processNfr n tl)).dedup,
      processNfr x tl = [x] := by
    intro x hx
    obtain ⟨y, _, hxy⟩ := List.mem_flatMap.1 (List.mem_dedup.1 hx)
    exact processNfr_self y tl x hxy
  rw [flatMap_processNfr_self tl _ hself, List.dedup_idem]

theorem cleanTool_idem (v tl : List ℕ) : cleanTool (cleanTool v tl) tl = cleanTool v tl := by
  by_cases h : (!v.isEmpty && isSub (lowerL v) tl) = true
  · simp only [cleanTool, h, if_true]
  · by_cases h2 : (!(str "Not Specified").isEmpty && isSub (lowerL (str "Not Specified")) tl)
        = true <;>
      simp only [cleanTool, h, h2, if_true, if_false, Bool.false_eq_true]

/-- Claim C7: Running `_sanitize_profile` on its own output against the same
source text returns the output unchanged: the budget override and the
description depend only on the text, `Not Specified` sentinels are stable
under the tech-stack check, and every validated requirement re-validates to
itself (title-casing and set-deduplication are idempotent). -/
theorem sanitize_profile_idem (p : Profile) (t : List ℕ) :
    _sanitize_profile (_sanitize_profile p t) t = _sanitize_profile p t := by
  simp only [_sanitize_profile, Profile.mk.injEq, true_and, and_true]
  refine ⟨?_, ?_, ?_⟩
  · cases hb : budgetFromText (lowerL t) <;> simp [hb]
  · rw [List.map_map]
    apply List.map_congr_left
    intro lt _
    show (lt.1, cleanTool (cleanTool lt.2 (lowerL t)) (lowerL t)) = (lt.1, cleanTool lt.2 (lowerL t))
    rw [cleanTool_idem]
  · exact nfrs_idem (lowerL t) p.non_functional_requirements
